import Mathlib

set_option maxHeartbeats 1000000

/-!
Verification development for the Vacina-Brasil normalization core
(`backend/normalizer.py` and `backend/previsao_router.py`).

Modelling conventions:
* Python strings are modelled as `List Char` (wrapped in `String` at the
  API boundary); `str.strip`, `str.upper`, `str.lower` are modelled over
  ASCII (the repository's data is ASCII); regex character class `\s` and
  `str.strip` use the six ASCII whitespace characters.
* The fixed regular expressions appearing literally in the source
  (`^SES[\-\s./]*`, `([A-Z]{2})$`, `VACINA(?:\s*(?:P/|PARA|CONTRA)\s*)?(.*)$`,
  `.*DILUENTE.*?`, `[\-\(\)\,\d]`, `SARS[- ]?COV2|COVID[- ]?19`) are
  implemented concretely, assuming newline-free inputs (so `.` is
  any-character and `$` is end-of-string, which coincides with Python on
  inputs without a newline).
* The user-supplied rule patterns of `mappings.json` go through Python's
  `re` module, which is external to the repository; it is abstracted as an
  oracle `Re` giving, for each pattern, whether it compiles and whether a
  case-insensitive search in a given text succeeds.
-/

/-- ASCII whitespace, as in Python's `str.strip` and the regex class `\s`. -/
def pyWhite (c : Char) : Bool :=
  c = ' ' || c = '\t' || c = '\n' || c = '\x0b' || c = '\x0c' || c = '\r'

/-- ASCII upper-casing of one character, as in Python's `str.upper`. -/
def upChar (c : Char) : Char :=
  if 97 ≤ c.toNat ∧ c.toNat ≤ 122 then Char.ofNat (c.toNat - 32) else c

/-- ASCII lower-casing of one character, as in Python's `str.lower`. -/
def downChar (c : Char) : Char :=
  if 65 ≤ c.toNat ∧ c.toNat ≤ 90 then Char.ofNat (c.toNat + 32) else c

/-- `str.strip()` from the left: drop leading whitespace. -/
def stripL (s : List Char) : List Char := s.dropWhile pyWhite

/-- Python's `str.strip()`: drop leading and trailing whitespace. -/
def stripChars (s : List Char) : List Char :=
  ((stripL s).reverse.dropWhile pyWhite).reverse

/-- Does `s` start with `p`? (executable) -/
def startsWithB : List Char → List Char → Bool
  | [], _ => true
  | _ :: _, [] => false
  | p :: ps, c :: cs => p = c && startsWithB ps cs

/-- Does `s` contain `p` as a contiguous substring? (executable) -/
def hasSubstr (p : List Char) : List Char → Bool
  | [] => startsWithB p []
  | c :: cs => startsWithB p (c :: cs) || hasSubstr p cs

/-- Uppercase A-Z test (the regex class `[A-Z]`). -/
def isUpAZ (c : Char) : Bool := 'A' ≤ c && c ≤ 'Z'

/-- Strip the leading prefix matched by the regex `^SES[\-\s./]*`
(`re.sub(r"^SES[\-\s./]*", "", s)` in `Normalizer.normalize_sigla`):
a literal `SES` followed by a greedy run of hyphen/whitespace/dot/slash. -/
def stripSes (s : List Char) : List Char :=
  if startsWithB "SES".data s then
    (s.drop 3).dropWhile (fun c => c = '-' || pyWhite c || c = '.' || c = '/')
  else s

/-- The match of `re.search(r"([A-Z]{2})$", s)`: the last two characters
when both are in `A`-`Z`, otherwise no match. -/
def lastTwoUpper (s : List Char) : Option (List Char) :=
  match s.reverse with
  | b :: a :: _ => if isUpAZ a && isUpAZ b then some [a, b] else none
  | _ => none

/-- Embedding of `Normalizer.normalize_sigla`, over character lists:
strip+uppercase, strip the `SES` prefix, then either the trailing two
capital letters or the first two characters. -/
def normSiglaChars (s : List Char) : Option (List Char) :=
  let s1 := (stripChars s).map upChar
  let s2 := stripSes s1
  match lastTwoUpper s2 with
  | some g => some g
  | none => if s2 ≠ [] then some (s2.take 2) else none

/-- Embedding of `Normalizer.normalize_sigla` (`backend/normalizer.py`,
lines 20-28). `none` input models Python `None`; the `not tx_sigla` guard
rejects `None` and the empty string. -/
def normalize_sigla (tx : Option String) : Option String :=
  match tx with
  | none => none
  | some t => if t = "" then none else (normSiglaChars t.data).map List.asString

/-- One rule record of `mappings.json`: the fields read by
`Normalizer.load_mappings` / `Normalizer.normalize_insumo`
(`m.get("pattern")`, `m.get("vacina_normalizada")`, `x.get("priority", 100)`).
Absent JSON fields are `none`. -/
structure Rule where
  pattern : Option String
  vacina_normalizada : Option String
  priority : Option Int
deriving DecidableEq, Repr

/-- The sort key of `load_mappings`: `x.get("priority", 100)`. -/
def prioOf (r : Rule) : Int := r.priority.getD 100

/-- Stable insertion used to model Python's stable `sorted`: the inserted
element goes before every element whose priority is not strictly smaller. -/
def insertRule (r : Rule) : List Rule → List Rule
  | [] => [r]
  | x :: xs => if prioOf x < prioOf r then x :: insertRule r xs else r :: x :: xs

/-- Embedding of `Normalizer.load_mappings` (`backend/normalizer.py`,
lines 12-18), after JSON decoding: `sorted(data, key=lambda x:
x.get("priority", 100))`, a stable ascending sort.  (The file I/O — a
missing file yields `[]` — is outside the model; the decoded rule list is
the input.) -/
def load_mappings (data : List Rule) : List Rule := data.foldr insertRule []

/-- Oracle for Python's `re` module on the user-supplied rule patterns of
`mappings.json` (external to the repository): whether a pattern compiles,
and whether `re.search(pat, text, flags=re.IGNORECASE)` succeeds. -/
structure Re where
  compiles : String → Bool
  isearch : String → String → Bool

/-- One iteration of the rule loop of `normalize_insumo`: `pat =
m.get("pattern") or ""`; if `pat` is non-empty, try the regex search and,
when the pattern does not compile (`re.error`), fall back to
case-insensitive substring containment (`pat.lower() in tx.lower()`). -/
def ruleMatch (E : Re) (tx : String) (r : Rule) : Bool :=
  let pat := r.pattern.getD ""
  if pat = "" then false
  else if E.compiles pat then E.isearch pat tx
  else hasSubstr (pat.data.map downChar) (tx.data.map downChar)

/-- The rule loop of `normalize_insumo`: return the label of the first
matching rule (`some lbl`, where `lbl` is the possibly-absent
`vacina_normalizada`), or `none` when no rule matches. -/
def firstRuleLabel (E : Re) (tx : String) : List Rule → Option (Option String)
  | [] => none
  | r :: rs => if ruleMatch E tx r then some r.vacina_normalizada else firstRuleLabel E tx rs

/-- If `p` is a prefix of `s`, the remainder of `s` after the first
occurrence of `p`; `none` when `p` does not occur. -/
def afterFirst (p : List Char) : List Char → Option (List Char)
  | [] => if startsWithB p [] then some [] else none
  | c :: cs =>
      if startsWithB p (c :: cs) then some ((c :: cs).drop p.length)
      else afterFirst p cs

/-- Index of the first occurrence of `p` in `s`. -/
def idxOfFirst (p : List Char) : List Char → Option Nat
  | [] => if startsWithB p [] then some 0 else none
  | c :: cs =>
      if startsWithB p (c :: cs) then some 0
      else (idxOfFirst p cs).map (· + 1)

/-- `re.sub(r".*DILUENTE.*?", "", s)` on a newline-free `s`: the greedy
`.*` swallows everything up to the last occurrence of `DILUENTE`, the lazy
tail matches nothing, so the result is the suffix after the last
occurrence (the string itself when `DILUENTE` does not occur).  The last
occurrence is located as the first occurrence of the reversed token in the
reversed string (the token has no self-overlap). -/
def afterLastDiluente (s : List Char) : List Char :=
  match idxOfFirst "ETNEULID".data s.reverse with
  | some i => (s.reverse.take i).reverse
  | none => s

/-- The capture of `re.search(r"VACINA(?:\s*(?:P/|PARA|CONTRA)\s*)?(.*)$", s)`
on a newline-free `s`: find the first `VACINA`, optionally consume
whitespace, one of `P/` / `PARA` / `CONTRA` (tried in that order) and more
whitespace, and capture the rest; when no connector follows, the greedy
optional group is skipped and the capture starts right after `VACINA`. -/
def vacinaCapture (s : List Char) : Option (List Char) :=
  match afterFirst "VACINA".data s with
  | none => none
  | some rest =>
      let r2 := rest.dropWhile pyWhite
      if startsWithB "P/".data r2 then some ((r2.drop 2).dropWhile pyWhite)
      else if startsWithB "PARA".data r2 then some ((r2.drop 4).dropWhile pyWhite)
      else if startsWithB "CONTRA".data r2 then some ((r2.drop 6).dropWhile pyWhite)
      else some rest

/-- `re.sub(r"[\-\(\)\,\d]", "", s)`: delete hyphens, parentheses, commas
and ASCII digits. -/
def cleanCandidate (s : List Char) : List Char :=
  s.filter (fun c => !(c = '-' || c = '(' || c = ')' || c = ',' || c.isDigit))

/-- Does `re.search(r"SARS[- ]?COV2|COVID[- ]?19", tx, re.IGNORECASE)`
succeed?  Checked on the upper-cased text; the optional separator is a
hyphen or a space. -/
def sarsScan : List Char → Bool
  | [] => false
  | c :: cs => sarsHere (c :: cs) || sarsScan cs
where
  /-- Match one alternative at the current position. -/
  sarsHere (s : List Char) : Bool :=
    (startsWithB "SARS".data s && optSepThen "COV2".data (s.drop 4))
    || (startsWithB "COVID".data s && optSepThen "19".data (s.drop 5))
  /-- `[- ]?` then the literal `p`. -/
  optSepThen (p : List Char) (s : List Char) : Bool :=
    startsWithB p s ||
      (match s with
       | c :: cs => (c = '-' || c = ' ') && startsWithB p cs
       | [] => false)

/-- The `# fallback SARS-COV2` block of `normalize_insumo` (lines 63-65). -/
def sarsFallback (tx : List Char) : Option String :=
  if sarsScan (tx.map upChar) then some "Covid-19" else none

/-- The `DILUENTE` special case of `normalize_insumo` (lines 43-61), as a
stage returning `some lbl` when some rule matched the extracted candidate
(an early `return` in Python, with `lbl` the rule's possibly-absent label)
and `none` when the stage falls through. -/
def diluentStage (E : Re) (mappings : List Rule) (tx : List Char) : Option (Option String) :=
  let txU := tx.map upChar
  if hasSubstr "DILUENTE".data txU then
    let candidate :=
      match vacinaCapture txU with
      | some cap => stripChars cap
      | none => stripChars (afterLastDiluente txU)
    if candidate ≠ [] then
      firstRuleLabel E (stripChars (cleanCandidate candidate)).asString mappings
    else none
  else none

/-- Embedding of `Normalizer.normalize_insumo` (`backend/normalizer.py`,
lines 30-67) over an already-loaded (sorted) rule list: guard against
`None`/empty input, trim, try the rule loop, then the `DILUENTE` special
case, then the Covid fallback.  An early `return` of a matched rule's
absent label is a `some none` of the stage, which makes the whole function
return `none` without trying later stages — exactly as in the source. -/
def normalize_insumo (E : Re) (mappings : List Rule) (tx? : Option String) : Option String :=
  match tx? with
  | none => none
  | some t =>
    if t = "" then none else
    let tx := stripChars t.data
    match firstRuleLabel E tx.asString mappings with
    | some lbl => lbl
    | none =>
        match diluentStage E mappings tx with
        | some lbl => lbl
        | none => sarsFallback tx

/-- A concrete `Re` oracle adequate for patterns that are plain literal
text (no metacharacters): every pattern compiles and a case-insensitive
search is substring containment. -/
def litRe : Re where
  compiles := fun _ => true
  isearch := fun p t => hasSubstr (p.data.map downChar) (t.data.map downChar)

/-- A scalar JSON/RPC value inside a raw row.  `none` is Python `None`
(also standing for an absent value), `float` is modelled exactly by a
rational, `other` is any value on which `int()`/`float()` raise. -/
inductive PyVal where
  | none
  | int (n : Int)
  | float (q : Rat)
  | str (s : String)
  | other
deriving DecidableEq, Repr

/-- One raw row returned by the RPC: a keyed mapping (insertion-ordered,
as Python dicts are), a list/tuple, Python `None`, or anything else. -/
inductive RawRow where
  | dict (entries : List (String × PyVal))
  | seq (items : List PyVal)
  | pynone
  | other
deriving DecidableEq, Repr

/-- Truncation toward zero, as in Python's `int(float)`. -/
def pyTrunc (q : Rat) : Int := if 0 ≤ q then ⌊q⌋ else ⌈q⌉

/-- Digits of an ASCII decimal literal to a number. -/
def digitsVal : List Char → Nat
  | [] => 0
  | c :: cs => (c.toNat - 48) * 10 ^ cs.length + digitsVal cs

/-- Parse an optional sign, returning the sign factor and the remainder. -/
def signSplit : List Char → Int × List Char
  | '+' :: cs => (1, cs)
  | '-' :: cs => (-1, cs)
  | cs => (1, cs)

/-- Python's `int(str)` (ASCII model, no underscores): optional surrounding
whitespace, an optional sign, one or more digits. -/
def parseIntPy (s : List Char) : Option Int :=
  let t := stripChars s
  let (sg, ds) := signSplit t
  if ds ≠ [] ∧ ds.all Char.isDigit then some (sg * digitsVal ds) else none

/-- Python's `float(str)` (ASCII model, no underscores, no inf/nan):
optional surrounding whitespace and sign, digits with an optional decimal
point (at least one digit overall), and an optional exponent. -/
def parseFloatPy (s : List Char) : Option Rat :=
  let t := stripChars s
  let (sg, ds) := signSplit t
  let ip := ds.takeWhile Char.isDigit
  let rest1 := ds.drop ip.length
  let mant : Option (Rat × List Char) :=
    match rest1 with
    | '.' :: fr0 =>
        let fp := fr0.takeWhile Char.isDigit
        if ip ≠ [] ∨ fp ≠ [] then
          some ((digitsVal ip : Rat) + (digitsVal fp : Rat) / (10 : Rat) ^ fp.length,
            fr0.drop fp.length)
        else Option.none
    | _ => if ip ≠ [] then some ((digitsVal ip : Rat), rest1) else Option.none
  match mant with
  | Option.none => Option.none
  | some (m, tail) =>
      match tail with
      | [] => some ((sg : Rat) * m)
      | e :: ex =>
          if e = 'e' ∨ e = 'E' then
            let (esg, eds) := signSplit ex
            if eds ≠ [] ∧ eds.all Char.isDigit then
              some ((sg : Rat) * m * (10 : Rat) ^ (esg * (digitsVal eds : Int)))
            else Option.none
          else Option.none

/-- Python's `int(x)` on a non-`None` scalar: identity on ints, truncation
on floats, strict decimal parse on strings, `TypeError` (`none`) otherwise. -/
def pyIntOf : PyVal → Option Int
  | .int n => some n
  | .float q => some (pyTrunc q)
  | .str s => parseIntPy s.data
  | _ => Option.none

/-- Python's `float(x)` on a non-`None` scalar. -/
def pyFloatOf : PyVal → Option Rat
  | .int n => some (n : Rat)
  | .float q => some q
  | .str s => parseFloatPy s.data
  | _ => Option.none

/-- Python's `str(x)`.  The textual form of non-string scalars is modelled
approximately (no claim depends on it); strings are returned verbatim. -/
def pyStrOf : PyVal → String
  | .none => "None"
  | .int n => toString n
  | .float q => toString q
  | .str s => s
  | .other => "<object>"

/-- The coercion block of `_normalize_row` (`backend/previsao_router.py`,
lines 90-102) for the year: `int(ano) if ano is not None else None`, with
an `int(float(ano))` retry on failure, `None` on total failure. -/
def coerceYear (a : PyVal) : Option Int :=
  match a with
  | .none => Option.none
  | v =>
      match pyIntOf v with
      | some n => some n
      | Option.none =>
          match pyFloatOf v with
          | some q => some (pyTrunc q)
          | Option.none => Option.none

/-- `float(quantidade) if quantidade is not None else None`, `None` on
failure. -/
def coerceQty (q : PyVal) : Option Rat :=
  match q with
  | .none => Option.none
  | v => pyFloatOf v

/-- `str(tipo) if tipo is not None else None`. -/
def coerceTipo (t : PyVal) : Option String :=
  match t with
  | .none => Option.none
  | v => some (pyStrOf v)

/-- The fixed record produced by `_normalize_row`:
`{"ano": ..., "quantidade": ..., "tipo_dado": ...}`. -/
structure CanonicalRow where
  ano : Option Int
  quantidade : Option Rat
  tipo_dado : Option String
deriving DecidableEq, Repr

/-- Lines 102-107 of `previsao_router.py`: coerce the three picked values
and drop the record when all three came out absent. -/
def coerceRow (a q t : PyVal) : Option CanonicalRow :=
  let ai := coerceYear a
  let qn := coerceQty q
  let ts := coerceTipo t
  if ai = Option.none ∧ qn = Option.none ∧ ts = Option.none then Option.none
  else some ⟨ai, qn, ts⟩

/-- `item.get(k)` on the insertion-ordered entry list (Python dict keys
are unique; lookup takes the first occurrence). -/
def dictGet (entries : List (String × PyVal)) (k : String) : Option PyVal :=
  (entries.find? (fun p => p.1 = k)).map (·.2)

/-- The `_pick(keys)` helper of `_normalize_row` (lines 58-62): the value
under the first candidate key that is present with a non-`None` value. -/
def pickKeys (entries : List (String × PyVal)) : List String → PyVal
  | [] => .none
  | k :: ks =>
      match dictGet entries k with
      | some v => if v ≠ .none then v else pickKeys entries ks
      | Option.none => pickKeys entries ks

/-- The shape-dependent extraction of `_normalize_row` (lines 48-88):
key-based then positional extraction from dicts, positional extraction
from length-≥2 sequences, `None` for everything else.  Absent fields are
the `PyVal.none` value — exactly Python's `None`. -/
def extractFields : RawRow → Option (PyVal × PyVal × PyVal)
  | .pynone => Option.none
  | .other => Option.none
  | .dict entries =>
      let ano := pickKeys entries ["ano", "year", "f0", "0", "ano_val"]
      let qty := pickKeys entries ["quantidade", "quant", "qtde", "f1", "1", "quantidade_val"]
      let tipo := pickKeys entries ["tipo_dado", "tipo", "f2", "2"]
      if ano = .none ∨ qty = .none then
        let vals := entries.map (·.2)
        if vals.length ≥ 2 then
          some (if ano = .none then vals.headD .none else ano,
            if qty = .none then (vals.drop 1).headD .none else qty,
            if tipo = .none ∧ vals.length ≥ 3 then (vals.drop 2).headD .none else tipo)
        else some (ano, qty, tipo)
      else some (ano, qty, tipo)
  | .seq items =>
      if items.length ≥ 2 then
        some (items.headD .none, (items.drop 1).headD .none,
          if items.length > 2 then (items.drop 2).headD .none else .none)
      else Option.none

/-- Embedding of `_normalize_row` (`backend/previsao_router.py`, lines
44-107). -/
def _normalize_row (item : RawRow) : Option CanonicalRow :=
  match extractFields item with
  | some (a, q, t) => coerceRow a q t
  | Option.none => Option.none

/-- The outcome classes of the `/previsao` shaping step: the 404 "no
data" response (`rpc_raw` attached when it carries the raw payload) and
the 200 response with the rows as received. -/
inductive ShapeResult where
  | emptyR (rpc_raw : Option (List RawRow))
  | dataR (rows : List RawRow)
deriving DecidableEq, Repr

/-- The single-degenerate-forecast-row test of `previsao` (lines 219-223):
the normalized row exists (a non-empty dict is truthy), its `tipo_dado`
is `"previsao"`, and its `quantidade` is `None` or numerically zero
(`float(q) == 0`). -/
def isDegenerate (r : RawRow) : Bool :=
  match _normalize_row r with
  | some nr =>
      nr.tipo_dado = some "previsao" &&
        (match nr.quantidade with
         | Option.none => true
         | some q => q = 0)
  | Option.none => false

/-- Embedding of the shaping of a row list in `previsao`
(`backend/previsao_router.py`, lines 213-240): first the one-element
degenerate-forecast heuristic, then the empty-list check, then the
success response with the rows exactly as received (wrapped under
`rpc_raw` when `debug`, still unmodified). -/
def shapeList (rows : List RawRow) (debug : Bool) : ShapeResult :=
  match rows with
  | [r] =>
      if isDegenerate r then .emptyR (if debug then some rows else Option.none)
      else .dataR rows
  | [] => .emptyR (if debug then some rows else Option.none)
  | _ => .dataR rows

/-- Spec-side restatement of the shaping rules (spec §4.5 / claim C1):
empty list → `EmptyResult`; a single degenerate forecast row →
`EmptyResult`; anything else → `DataResult` with the rows as received.
The raw payload is attached exactly when `debug` is true. -/
def shapeSpec (rows : List RawRow) (debug : Bool) : ShapeResult :=
  if rows = [] then .emptyR (if debug then some rows else Option.none)
  else
    match rows with
    | [r] =>
        if isDegenerate r then .emptyR (if debug then some rows else Option.none)
        else .dataR rows
    | _ => .dataR rows

/-- Spec-side restatement of one rule test (spec §4.3 / claim C2): the
pattern is non-empty, and either it compiles and the case-insensitive
regex search succeeds, or it does not compile and the lower-cased pattern
is contained in the lower-cased text. -/
def specRuleMatch (E : Re) (tx : String) (r : Rule) : Bool :=
  let pat := r.pattern.getD ""
  decide (pat ≠ "") &&
    (if E.compiles pat then E.isearch pat tx
     else hasSubstr (pat.data.map downChar) (tx.data.map downChar))

/-- The candidate of the diluent special case as claim C3 words it, with
the one amendment the code forces: the embedded-vaccine capture after
`VACINA`, else the remainder after the **last** occurrence of `DILUENTE`;
then hyphens, parentheses, commas and digits are removed and whitespace
trimmed. -/
def specDiluentCandidate (txU : List Char) : List Char :=
  let base :=
    match vacinaCapture txU with
    | some cap => cap
    | Option.none => afterLastDiluente txU
  stripChars (cleanCandidate (stripChars base))

/-- The candidate extraction exactly as claim C3 states it (remainder
after the **first** occurrence of `DILUENTE`), used to exhibit where the
claim and the code part ways. -/
def claimC3Candidate (txU : List Char) : List Char :=
  let base :=
    match vacinaCapture txU with
    | some cap => cap
    | Option.none => (afterFirst "DILUENTE".data txU).getD txU
  stripChars (cleanCandidate (stripChars base))

/-- Spec-side key pick (spec §4.4 / claim C4): the value under the first
candidate key that is present with a non-null value (a key holding `None`
counts as absent, as in the source's `item.get(k) is not None` guard). -/
def specPickKeys (entries : List (String × PyVal)) (keys : List String) : PyVal :=
  (keys.findSome? (fun k =>
    match dictGet entries k with
    | some v => if v = .none then Option.none else some v
    | Option.none => Option.none)).getD .none

/-- The extraction of claim C4 with the one amendment the code forces:
positional inference is attempted only when the mapping holds at least
two values. -/
def specExtractAmended : RawRow → Option (PyVal × PyVal × PyVal)
  | .dict entries =>
      let ano := specPickKeys entries ["ano", "year", "f0", "0", "ano_val"]
      let qty := specPickKeys entries ["quantidade", "quant", "qtde", "f1", "1", "quantidade_val"]
      let tipo := specPickKeys entries ["tipo_dado", "tipo", "f2", "2"]
      let vals := entries.map (·.2)
      if (ano = .none ∨ qty = .none) ∧ vals.length ≥ 2 then
        some (if ano = .none then vals.headD .none else ano,
          if qty = .none then (vals.drop 1).headD .none else qty,
          if tipo = .none ∧ vals.length ≥ 3 then (vals.drop 2).headD .none else tipo)
      else some (ano, qty, tipo)
  | .seq items =>
      if items.length ≥ 2 then
        some (items.headD .none, (items.drop 1).headD .none,
          if items.length > 2 then (items.drop 2).headD .none else .none)
      else Option.none
  | _ => Option.none

/-- The extraction exactly as claim C4 states it: positional inference
fills the 1st value into the year and the 2nd into the quantity whenever
those values exist, with no at-least-two-values precondition. -/
def specExtractClaim : RawRow → Option (PyVal × PyVal × PyVal)
  | .dict entries =>
      let ano := specPickKeys entries ["ano", "year", "f0", "0", "ano_val"]
      let qty := specPickKeys entries ["quantidade", "quant", "qtde", "f1", "1", "quantidade_val"]
      let tipo := specPickKeys entries ["tipo_dado", "tipo", "f2", "2"]
      let vals := entries.map (·.2)
      some (if ano = .none ∧ vals.length ≥ 1 then vals.headD .none else ano,
        if qty = .none ∧ vals.length ≥ 2 then (vals.drop 1).headD .none else qty,
        if tipo = .none ∧ vals.length ≥ 3 then (vals.drop 2).headD .none else tipo)
  | .seq items =>
      if items.length ≥ 2 then
        some (items.headD .none, (items.drop 1).headD .none,
          if items.length > 2 then (items.drop 2).headD .none else .none)
      else Option.none
  | _ => Option.none

/-- `_normalize_row` as claim C4 literally states it (extraction of
`specExtractClaim`, coercion as in the source). -/
def claimC4NormalizeRow (item : RawRow) : Option CanonicalRow :=
  match specExtractClaim item with
  | some (a, q, t) => coerceRow a q t
  | Option.none => Option.none

/-- `_normalize_row` as the amended claim C4 states it. -/
def specNormalizeRowAmended (item : RawRow) : Option CanonicalRow :=
  match specExtractAmended item with
  | some (a, q, t) => coerceRow a q t
  | Option.none => Option.none

/-- Year coercion as claim C5 words it: integer coercion, then a
real-number parse followed by truncation, absent on total failure
(`None` input stays absent). -/
def specYearCoerce (a : PyVal) : Option Int :=
  if a = .none then Option.none
  else (pyIntOf a).orElse (fun _ => (pyFloatOf a).map pyTrunc)

/-- Quantity coercion as claim C5 words it: real-number coercion, absent
on failure. -/
def specQtyCoerce (q : PyVal) : Option Rat :=
  if q = .none then Option.none else pyFloatOf q

/-- Data-kind coercion as claim C5 words it: text coercion, absent stays
absent. -/
def specTipoCoerce (t : PyVal) : Option String :=
  if t = .none then Option.none else some (pyStrOf t)

/-- The coercion-and-final-rule step as claim C5 words it. -/
def specCoerceRow (a q t : PyVal) : Option CanonicalRow :=
  let y := specYearCoerce a
  let qn := specQtyCoerce q
  let ts := specTipoCoerce t
  if y = Option.none ∧ qn = Option.none ∧ ts = Option.none then Option.none
  else some ⟨y, qn, ts⟩

/-- `normalize_sigla` as claim C6 words it: null on null/empty input;
trim and upper-case; strip the `SES` prefix; the trailing two capital
letters if the text ends with them, else the first two characters, or
null when nothing remains. -/
def specNormalizeSigla (tx : Option String) : Option String :=
  match tx with
  | Option.none => Option.none
  | some t =>
      if t = "" then Option.none
      else
        let s := stripSes ((stripChars t.data).map upChar)
        if 2 ≤ s.length ∧ (s.drop (s.length - 2)).all isUpAZ then
          some (s.drop (s.length - 2)).asString
        else if s ≠ [] then some (s.take 2).asString
        else Option.none

/-- The Covid fallback condition as claim C8 words it: the upper-cased
text contains `SARS`, optionally a hyphen or a space, then `COV2`; or
`COVID`, optionally a hyphen or a space, then `19`. -/
def specCovidPattern (u : List Char) : Prop :=
  "SARSCOV2".data <:+: u ∨ "SARS-COV2".data <:+: u ∨ "SARS COV2".data <:+: u
    ∨ "COVID19".data <:+: u ∨ "COVID-19".data <:+: u ∨ "COVID 19".data <:+: u

/-! Sanity checks against the worked examples of spec §8. -/

example : normalize_sigla (some "SES-SP") = some "SP" := by decide
example : normalize_sigla (some "SES./RJ") = some "RJ" := by decide
example : normalize_sigla (some "") = none := by decide
example : normalize_sigla (some "A B") = some "A " := by decide
example : normalize_sigla (some "A ") = some "A" := by decide
example : normalize_sigla (some "a") = some "A" := by decide
example : normalize_sigla (some "ses") = none := by decide

example :
    normalize_insumo litRe
      (load_mappings
        [⟨some "BCG", some "BCG", some 1⟩, ⟨some "VACINA", some "Generic", some 2⟩])
      (some "VACINA BCG") = some "BCG" := by decide
example : normalize_insumo litRe [] (some "SARS-COV2 TESTE") = some "Covid-19" := by decide
example : normalize_insumo litRe [] (some "XYZ UNKNOWN") = none := by decide
example :
    normalize_insumo litRe [⟨some "FEBRE AMARELA", some "Febre Amarela", some 1⟩]
      (some "VACINA DILUENTE PARA FEBRE AMARELA") = some "Febre Amarela" := by decide
example :
    normalize_insumo litRe [⟨some "BCG", some "BCG-label", some 1⟩]
      (some "DILUENTE VACINA CONTRA B-C-G") = some "BCG-label" := by decide
example :
    normalize_insumo litRe [⟨some "BCG", some "BCG-label", some 1⟩]
      (some "DILUENTE B-C-G DILUENTE") = none := by decide

unseal Rat.add Rat.mul Rat.inv in
example :
    _normalize_row (.dict [("ano", .int 2021), ("quantidade", .str "150.5")])
      = some ⟨some 2021, some (301 / 2 : Rat), Option.none⟩ := by decide
example :
    _normalize_row (.seq [.int 2022, .int 10, .str "historico"])
      = some ⟨some 2022, some 10, some "historico"⟩ := by decide
example : _normalize_row (.dict []) = Option.none := by decide
example : _normalize_row (.seq [.int 5]) = Option.none := by decide
example : _normalize_row .pynone = Option.none := by decide
example : _normalize_row (.dict [("x", .int 2020)]) = Option.none := by decide

example :
    shapeList [.dict [("ano", .int 2025), ("quantidade", .int 0), ("tipo_dado", .str "previsao")]]
      false = .emptyR Option.none := by decide
example :
    shapeList [.dict [("ano", .int 2025), ("quantidade", .int 0), ("tipo_dado", .str "previsao")]]
      true = .emptyR (some [.dict [("ano", .int 2025), ("quantidade", .int 0), ("tipo_dado", .str "previsao")]]) := by
  decide
example :
    shapeList [.dict [("ano", .int 2023), ("quantidade", .int 500), ("tipo_dado", .str "historico")]]
      false
      = .dataR [.dict [("ano", .int 2023), ("quantidade", .int 500), ("tipo_dado", .str "historico")]] := by
  decide
example : shapeList [] false = .emptyR Option.none := by decide

/-! ### Helper lemmas -/

theorem char_toNat_ofNat (m : Nat) (hm : m < 55296) : (Char.ofNat m).toNat = m := by
  have hv : m.isValidChar := Or.inl hm
  rw [Char.ofNat, dif_pos hv]
  simp [Char.ofNatAux, Char.toNat, UInt32.toNat]

theorem upChar_fix {c : Char} (h : ¬(97 ≤ c.toNat ∧ c.toNat ≤ 122)) : upChar c = c := by
  simp only [upChar, if_neg h]

theorem upChar_upChar (c : Char) : upChar (upChar c) = upChar c := by
  by_cases h : 97 ≤ c.toNat ∧ c.toNat ≤ 122
  · have h1 : upChar c = Char.ofNat (c.toNat - 32) := by simp only [upChar, if_pos h]
    have h2 : (Char.ofNat (c.toNat - 32)).toNat = c.toNat - 32 :=
      char_toNat_ofNat _ (by omega)
    rw [h1]
    apply upChar_fix
    rw [h2]
    omega
  · rw [upChar_fix h, upChar_fix h]

theorem mem_map_upChar_fix {l : List Char} {c : Char} (h : c ∈ l.map upChar) :
    upChar c = c := by
  obtain ⟨a, _, rfl⟩ := List.mem_map.mp h
  exact upChar_upChar a

theorem dropWhile_eq_self_of_all {p : Char → Bool} {l : List Char}
    (h : ∀ c ∈ l, p c = false) : l.dropWhile p = l := by
  cases l with
  | nil => rfl
  | cons c cs => simp [List.dropWhile_cons, h c (List.mem_cons_self c cs)]

theorem stripChars_eq_self {l : List Char} (h : ∀ c ∈ l, pyWhite c = false) :
    stripChars l = l := by
  unfold stripChars stripL
  rw [dropWhile_eq_self_of_all h, dropWhile_eq_self_of_all, List.reverse_reverse]
  intro c hc
  exact h c (List.mem_reverse.mp hc)

theorem map_upChar_eq_self {l : List Char} (h : ∀ c ∈ l, upChar c = c) :
    l.map upChar = l := by
  induction l with
  | nil => rfl
  | cons c cs ih =>
      simp only [List.map_cons, h c (List.mem_cons_self c cs), List.cons.injEq, true_and]
      exact ih (fun x hx => h x (List.mem_cons_of_mem c hx))

theorem startsWithB_iff (p : List Char) : ∀ s, startsWithB p s = true ↔ ∃ t, s = p ++ t := by
  induction p with
  | nil => intro s; simp [startsWithB]
  | cons x xs ih =>
      intro s
      cases s with
      | nil => simp [startsWithB]
      | cons c cs =>
          simp only [startsWithB, Bool.and_eq_true, decide_eq_true_eq, ih,
            List.cons_append, List.cons.injEq]
          constructor
          · rintro ⟨rfl, t, rfl⟩
            exact ⟨t, rfl, rfl⟩
          · rintro ⟨t, rfl, rfl⟩
            exact ⟨rfl, t, rfl⟩

theorem hasSubstr_iff (p : List Char) : ∀ s, hasSubstr p s = true ↔ ∃ a b, s = a ++ p ++ b := by
  intro s
  induction s with
  | nil =>
      simp only [hasSubstr, startsWithB_iff]
      constructor
      · rintro ⟨t, ht⟩
        exact ⟨[], t, by simpa using ht⟩
      · rintro ⟨a, b, hab⟩
        obtain ⟨h1, h2⟩ := List.append_eq_nil.mp hab.symm
        obtain ⟨h3, h4⟩ := List.append_eq_nil.mp h1
        exact ⟨[], by simp [h4]⟩
  | cons c cs ih =>
      simp only [hasSubstr, Bool.or_eq_true, startsWithB_iff, ih]
      constructor
      · rintro (⟨t, ht⟩ | ⟨a, b, hab⟩)
        · exact ⟨[], t, by simpa using ht⟩
        · exact ⟨c :: a, b, by simp [hab]⟩
      · rintro ⟨a, b, hab⟩
        cases a with
        | nil => exact Or.inl ⟨b, by simpa using hab⟩
        | cons a0 as =>
            right
            refine ⟨as, b, ?_⟩
            have := hab
            simp only [List.cons_append, List.cons.injEq] at this
            exact this.2

theorem stripSes_subset (l : List Char) : stripSes l ⊆ l := by
  unfold stripSes
  split
  · intro c hc
    exact List.drop_subset _ _ ((List.dropWhile_sublist _).subset hc)
  · exact fun _ h => h

theorem asString_ne_empty {l : List Char} (h : l ≠ []) : List.asString l ≠ "" := by
  intro hc
  apply h
  simpa using congrArg String.data hc

/-- `re.search(r"([A-Z]{2})$", s)` characterised without the reversal: it
succeeds exactly when `s` has length at least two and its last two
characters are capitals, and then returns those two characters. -/
theorem lastTwoUpper_eq (s : List Char) :
    lastTwoUpper s =
      if 2 ≤ s.length ∧ (s.drop (s.length - 2)).all isUpAZ then
        some (s.drop (s.length - 2))
      else none := by
  rcases hrev : s.reverse with _ | ⟨b, l1⟩
  · have hs : s = [] := by simpa using congrArg List.reverse hrev
    subst hs
    simp [lastTwoUpper]
  · rcases l1 with _ | ⟨a, rest⟩
    · have hs : s = [b] := by simpa using congrArg List.reverse hrev
      subst hs
      simp [lastTwoUpper]
    · have hs : s = rest.reverse ++ [a, b] := by
        have h2 := congrArg List.reverse hrev
        simpa using h2
      have hlen : s.length = rest.length + 2 := by simp [hs]
      have hdrop : s.drop (s.length - 2) = [a, b] := by
        rw [hs]
        have h3 : (rest.reverse ++ [a, b]).length - 2 = rest.reverse.length := by simp
        rw [h3, List.drop_left]
      have hL : lastTwoUpper s
          = if isUpAZ a && isUpAZ b then some [a, b] else none := by
        unfold lastTwoUpper
        rw [hrev]
      rw [hL, hdrop]
      have hc : 2 ≤ s.length := by omega
      by_cases hab : isUpAZ a && isUpAZ b
      · rw [if_pos hab, if_pos]
        refine ⟨hc, ?_⟩
        simpa using hab
      · rw [if_neg hab, if_neg]
        intro hcon
        apply hab
        simpa using hcon.2

/-- Every non-null output of `normSiglaChars` is a non-empty list of at
most two characters, each fixed under upper-casing. -/
theorem normSigla_out {s r : List Char} (h : normSiglaChars s = some r) :
    r ≠ [] ∧ r.length ≤ 2 ∧ ∀ c ∈ r, upChar c = c := by
  unfold normSiglaChars at h
  dsimp only at h
  set s2 := stripSes ((stripChars s).map upChar) with hs2
  have hmem : ∀ c ∈ s2, upChar c = c := by
    intro c hc
    exact mem_map_upChar_fix (stripSes_subset _ hc)
  rw [lastTwoUpper_eq] at h
  by_cases hcond : 2 ≤ s2.length ∧ (s2.drop (s2.length - 2)).all isUpAZ
  · rw [if_pos hcond] at h
    dsimp only at h
    have hr : r = s2.drop (s2.length - 2) := (Option.some.inj h).symm
    have hl : r.length = 2 := by
      rw [hr, List.length_drop]
      omega
    refine ⟨?_, ?_, ?_⟩
    · intro hnil
      rw [hnil] at hl
      simp at hl
    · omega
    · intro c hc
      exact hmem c (List.drop_subset _ _ (hr ▸ hc))
  · rw [if_neg hcond] at h
    dsimp only at h
    by_cases hne : s2 ≠ []
    · rw [if_pos hne] at h
      have hr : r = s2.take 2 := (Option.some.inj h).symm
      refine ⟨?_, ?_, ?_⟩
      · rw [hr]
        rcases hx : s2 with _ | ⟨c, cs⟩
        · exact absurd hx hne
        · simp
      · rw [hr]
        simp
      · intro c hc
        exact hmem c (List.take_subset _ _ (hr ▸ hc))
    · rw [if_neg hne] at h
      cases h

/-! ### Claim theorems -/

/-- C1: for every list of raw rows reaching the `/previsao` shaping step,
the outcome is `EmptyResult` when the list is empty (regardless of debug)
or when it is a single degenerate forecast row (raw payload carried
exactly when debug is true), and otherwise `DataResult` with the rows
exactly as received. -/
theorem previsao_shape_spec (rows : List RawRow) (debug : Bool) :
    shapeList rows debug = shapeSpec rows debug := by
  match rows with
  | [] => rfl
  | [r] => simp [shapeList, shapeSpec]
  | a :: b :: rest => simp [shapeList, shapeSpec]

/-- C6: `normalize_sigla` returns null on null/empty input and otherwise
trims, upper-cases, strips the `SES` prefix and returns the trailing two
capital letters, else the first two characters, else null. -/
theorem normalize_sigla_spec (tx : Option String) :
    normalize_sigla tx = specNormalizeSigla tx := by
  cases tx with
  | none => rfl
  | some t =>
      by_cases ht : t = ""
      · simp [normalize_sigla, specNormalizeSigla, ht]
      · simp only [normalize_sigla, specNormalizeSigla, if_neg ht]
        unfold normSiglaChars
        dsimp only
        rw [lastTwoUpper_eq]
        set s2 := stripSes ((stripChars t.data).map upChar) with hs2
        by_cases h2 : 2 ≤ s2.length ∧ (s2.drop (s2.length - 2)).all isUpAZ
        · rw [if_pos h2, if_pos h2]
          rfl
        · rw [if_neg h2, if_neg h2]
          by_cases h3 : s2 ≠ []
          · rw [if_pos h3, if_pos h3]
            rfl
          · rw [if_neg h3, if_neg h3]
            rfl

/-- C9 counterexample: on input `"a"` the code returns the one-character
string `"A"`, so a non-null result need not have exactly two characters. -/
theorem normalize_sigla_len_cex :
    normalize_sigla (some "a") = some "A" ∧ ("A" : String).length ≠ 2 := by decide

/-- C9 (amended): every non-null result of `normalize_sigla` is a string
of one or two characters. -/
theorem normalize_sigla_len (t r : String)
    (h : normalize_sigla (some t) = some r) : r.length = 1 ∨ r.length = 2 := by
  unfold normalize_sigla at h
  dsimp only at h
  by_cases ht : t = ""
  · rw [if_pos ht] at h
    cases h
  · rw [if_neg ht] at h
    obtain ⟨rl, hrl, hstr⟩ := Option.map_eq_some'.mp h
    obtain ⟨hne, hlen, _⟩ := normSigla_out hrl
    have h1 : 1 ≤ rl.length := List.length_pos.mpr hne
    have h2 : r.length = rl.length := by rw [← hstr]; rfl
    omega

/-- C9 witness: the amended statement at the concrete input `"SES-SP"`. -/
theorem normalize_sigla_len_witness :
    ("SP" : String).length = 1 ∨ ("SP" : String).length = 2 :=
  normalize_sigla_len "SES-SP" "SP" (by decide)

/-- C7 counterexample: on input `"A B"` the first application returns
`"A "` (trailing space kept by the first-two-characters branch) and the
second application strips it to `"A"`, so `normalize_sigla` is not stable
on its own output. -/
theorem normalize_sigla_stable_cex :
    normalize_sigla (normalize_sigla (some "A B")) ≠ normalize_sigla (some "A B") := by
  decide

/-- C7 (amended): `normalize_sigla` is stable on its own output whenever
that output contains no whitespace character (the only unstable outputs
are those whose second character is whitespace, which the next
application trims away). -/
theorem normalize_sigla_stable (tx : Option String)
    (h : ∀ r, normalize_sigla tx = some r → r.data.all (fun c => !pyWhite c) = true) :
    normalize_sigla (normalize_sigla tx) = normalize_sigla tx := by
  rcases hr : normalize_sigla tx with _ | rStr
  · rfl
  · have hnw := h rStr hr
    cases tx with
    | none => cases hr
    | some t =>
        unfold normalize_sigla at hr
        dsimp only at hr
        by_cases ht : t = ""
        · rw [if_pos ht] at hr
          cases hr
        · rw [if_neg ht] at hr
          obtain ⟨rl, hrl, hstr⟩ := Option.map_eq_some'.mp hr
          obtain ⟨hne, hlen, hfix⟩ := normSigla_out hrl
          have hdata : rStr.data = rl := by rw [← hstr]; rfl
          have hnw2 : ∀ c ∈ rl, pyWhite c = false := by
            intro c hc
            have h3 := List.all_eq_true.mp hnw c (hdata ▸ hc)
            simpa using h3
          unfold normalize_sigla
          dsimp only
          rw [if_neg (hstr ▸ asString_ne_empty hne)]
          suffices hsuf : normSiglaChars rStr.data = some rl by
            rw [hsuf]
            simp [← hstr]
          rw [hdata]
          unfold normSiglaChars
          dsimp only
          rw [stripChars_eq_self hnw2, map_upChar_eq_self hfix]
          have hses : stripSes rl = rl := by
            unfold stripSes
            rw [if_neg]
            intro hb
            obtain ⟨tt, htt⟩ := (startsWithB_iff _ _).mp hb
            rw [htt] at hlen
            simp at hlen
          rw [hses, lastTwoUpper_eq]
          by_cases hc : 2 ≤ rl.length ∧ (rl.drop (rl.length - 2)).all isUpAZ
          · rw [if_pos hc]
            have hl2 : rl.length = 2 := le_antisymm hlen hc.1
            rw [hl2]
            simp
          · rw [if_neg hc, if_pos hne]
            rw [List.take_of_length_le hlen]

/-- C7 witness: stability at the concrete input `"SES-SP"`, whose output
`"SP"` contains no whitespace. -/
theorem normalize_sigla_stable_witness :
    normalize_sigla (normalize_sigla (some "SES-SP")) = normalize_sigla (some "SES-SP") := by
  apply normalize_sigla_stable
  intro r h
  have h2 : normalize_sigla (some "SES-SP") = some "SP" := by decide
  rw [h2] at h
  cases h
  decide


theorem pickKeys_eq_spec (entries : List (String × PyVal)) :
    ∀ keys, pickKeys entries keys = specPickKeys entries keys := by
  intro keys
  induction keys with
  | nil => rfl
  | cons k ks ih =>
      unfold pickKeys specPickKeys
      rw [List.findSome?_cons]
      cases hg : dictGet entries k with
      | none =>
          dsimp only
          exact ih
      | some v =>
          by_cases hv : v = PyVal.none
          · subst hv
            simpa using ih
          · simp [hv]

/-- C4 counterexample: on the one-entry mapping `{"x": 2020}` (no
candidate key present) the code returns null — positional inference is
skipped for mappings with fewer than two values — while the claim as
stated fills the single value into the year and predicts a record. -/
theorem normalize_row_cex :
    _normalize_row (.dict [("x", .int 2020)]) = Option.none
      ∧ claimC4NormalizeRow (.dict [("x", .int 2020)])
        = some ⟨some 2020, Option.none, Option.none⟩ := by decide

/-- C4 (amended): `_normalize_row` extracts fields exactly as the claim
states, with positional inference over a mapping's values attempted only
when the mapping holds at least two values. -/
theorem normalize_row_extraction (item : RawRow) :
    _normalize_row item = specNormalizeRowAmended item := by
  suffices h : extractFields item = specExtractAmended item by
    unfold _normalize_row specNormalizeRowAmended
    rw [h]
  cases item with
  | pynone => rfl
  | other => rfl
  | seq items => rfl
  | dict entries =>
      unfold extractFields specExtractAmended
      dsimp only
      rw [pickKeys_eq_spec, pickKeys_eq_spec, pickKeys_eq_spec]
      by_cases h1 : specPickKeys entries ["ano", "year", "f0", "0", "ano_val"] = .none
          ∨ specPickKeys entries ["quantidade", "quant", "qtde", "f1", "1", "quantidade_val"] = .none
      · rw [if_pos h1]
        by_cases h2 : (entries.map (·.2)).length ≥ 2
        · rw [if_pos h2, if_pos (And.intro h1 h2)]
        · rw [if_neg h2, if_neg (by tauto)]
      · rw [if_neg h1, if_neg (by tauto)]

theorem coerceYear_eq_spec (a : PyVal) : coerceYear a = specYearCoerce a := by
  cases a with
  | none => rfl
  | int n => rfl
  | float q => rfl
  | other => rfl
  | str s =>
      unfold coerceYear specYearCoerce
      rw [if_neg (by simp)]
      cases hp : pyIntOf (.str s) with
      | some n => simp [hp, Option.orElse]
      | none =>
          simp only [hp, Option.orElse]
          cases hf : pyFloatOf (.str s) <;> simp [hf]

theorem coerceQty_eq_spec (q : PyVal) : coerceQty q = specQtyCoerce q := by
  cases q <;> rfl

theorem coerceTipo_eq_spec (t : PyVal) : coerceTipo t = specTipoCoerce t := by
  cases t <;> rfl

theorem coerceRow_eq_spec (a q t : PyVal) : coerceRow a q t = specCoerceRow a q t := by
  unfold coerceRow specCoerceRow
  rw [coerceYear_eq_spec, coerceQty_eq_spec, coerceTipo_eq_spec]

/-- C5: field coercion in `_normalize_row` is total and degrades to
absence exactly as the claim states — the year through integer coercion
with a real-parse-then-truncate retry, the quantity through real
coercion, the data-kind through text coercion — and a row whose three
coerced fields are all absent yields null rather than an all-absent
record. -/
theorem normalize_row_coercion (item : RawRow) :
    _normalize_row item
      = (extractFields item).bind (fun p => specCoerceRow p.1 p.2.1 p.2.2) := by
  unfold _normalize_row
  cases hx : extractFields item with
  | none => rfl
  | some p =>
      obtain ⟨a, q, t⟩ := p
      simp only [Option.bind_some]
      exact coerceRow_eq_spec a q t

theorem insertRule_perm (r : Rule) (l : List Rule) : (insertRule r l).Perm (r :: l) := by
  induction l with
  | nil => exact List.Perm.refl _
  | cons x xs ih =>
      unfold insertRule
      by_cases h : prioOf x < prioOf r
      · rw [if_pos h]
        exact (ih.cons x).trans (List.Perm.swap r x xs)
      · rw [if_neg h]

theorem load_mappings_perm (data : List Rule) : (load_mappings data).Perm data := by
  induction data with
  | nil => exact List.Perm.refl _
  | cons a l ih =>
      have hstep : load_mappings (a :: l) = insertRule a (load_mappings l) := rfl
      rw [hstep]
      exact (insertRule_perm a (load_mappings l)).trans (ih.cons a)

theorem insertRule_sorted (r : Rule) {l : List Rule}
    (h : l.Pairwise (fun a b => prioOf a ≤ prioOf b)) :
    (insertRule r l).Pairwise (fun a b => prioOf a ≤ prioOf b) := by
  induction l with
  | nil => simp [insertRule]
  | cons x xs ih =>
      rw [List.pairwise_cons] at h
      obtain ⟨hx, hxs⟩ := h
      unfold insertRule
      by_cases hc : prioOf x < prioOf r
      · rw [if_pos hc]
        rw [List.pairwise_cons]
        refine ⟨?_, ih hxs⟩
        intro y hy
        rcases List.mem_cons.mp ((insertRule_perm r xs).mem_iff.mp hy) with rfl | hy2
        · omega
        · exact hx y hy2
      · rw [if_neg hc]
        rw [List.pairwise_cons]
        refine ⟨?_, List.pairwise_cons.mpr ⟨hx, hxs⟩⟩
        intro y hy
        rcases List.mem_cons.mp hy with rfl | hy2
        · omega
        · have := hx y hy2
          omega

theorem load_mappings_sorted (data : List Rule) :
    (load_mappings data).Pairwise (fun a b => prioOf a ≤ prioOf b) := by
  induction data with
  | nil => simp [load_mappings]
  | cons a l ih => exact insertRule_sorted a ih

theorem insertRule_filter (r : Rule) (l : List Rule) (p : Int) :
    (insertRule r l).filter (fun x => decide (prioOf x = p))
      = ((r :: l).filter (fun x => decide (prioOf x = p))) := by
  induction l with
  | nil => rfl
  | cons x xs ih =>
      unfold insertRule
      by_cases hc : prioOf x < prioOf r
      · rw [if_pos hc]
        by_cases hx : prioOf x = p <;> by_cases hr : prioOf r = p
        · omega
        · simp [List.filter_cons, hx, hr, ih]
        · simp [List.filter_cons, hx, hr] at ih ⊢
          exact ih
        · simp [List.filter_cons, hx, hr] at ih ⊢
          exact ih
      · rw [if_neg hc]

theorem load_mappings_filter (data : List Rule) (p : Int) :
    (load_mappings data).filter (fun x => decide (prioOf x = p))
      = data.filter (fun x => decide (prioOf x = p)) := by
  induction data with
  | nil => rfl
  | cons a l ih =>
      have hstep : load_mappings (a :: l) = insertRule a (load_mappings l) := rfl
      rw [hstep, insertRule_filter, List.filter_cons, List.filter_cons, ih]

theorem firstRuleLabel_eq_find (E : Re) (tx : String) :
    ∀ ms, firstRuleLabel E tx ms
      = (ms.find? (ruleMatch E tx)).map (fun r => r.vacina_normalizada) := by
  intro ms
  induction ms with
  | nil => rfl
  | cons r rs ih =>
      cases hm : ruleMatch E tx r <;>
        simp [firstRuleLabel, List.find?_cons, hm, ih]

theorem firstRuleLabel_mem {E : Re} {tx : String} {ms : List Rule} {lbl : Option String}
    (h : firstRuleLabel E tx ms = some lbl) : ∃ r ∈ ms, r.vacina_normalizada = lbl := by
  induction ms with
  | nil => cases h
  | cons r rs ih =>
      unfold firstRuleLabel at h
      by_cases hm : ruleMatch E tx r
      · rw [if_pos hm] at h
        exact ⟨r, List.mem_cons_self r rs, Option.some.inj h⟩
      · rw [if_neg hm] at h
        obtain ⟨x, hx, hlbl⟩ := ih h
        exact ⟨x, List.mem_cons_of_mem r hx, hlbl⟩

theorem ruleMatch_eq_spec (E : Re) (tx : String) (r : Rule) :
    ruleMatch E tx r = specRuleMatch E tx r := by
  unfold ruleMatch specRuleMatch
  by_cases hp : r.pattern.getD "" = ""
  · simp [hp]
  · simp [hp]

/-- C2: `load_mappings` is the stable ascending sort of the rule table by
priority (default 100): a permutation of the input, pairwise ascending,
preserving the relative order of equal priorities; one rule test is
exactly the non-empty-pattern regex-or-substring check of the claim; and
when a first matching rule exists in the sorted table, `normalize_insumo`
returns exactly that rule's canonical label. -/
theorem normalize_insumo_rule_order (E : Re) (data : List Rule) (t : String)
    (h : stripChars t.data ≠ []) :
    (load_mappings data).Perm data
    ∧ (load_mappings data).Pairwise (fun a b => prioOf a ≤ prioOf b)
    ∧ (∀ p : Int, (load_mappings data).filter (fun x => decide (prioOf x = p))
        = data.filter (fun x => decide (prioOf x = p)))
    ∧ (∀ r, ruleMatch E (stripChars t.data).asString r
        = specRuleMatch E (stripChars t.data).asString r)
    ∧ (∀ r, (load_mappings data).find? (ruleMatch E (stripChars t.data).asString) = some r →
        normalize_insumo E (load_mappings data) (some t) = r.vacina_normalizada) := by
  refine ⟨load_mappings_perm data, load_mappings_sorted data,
    fun p => load_mappings_filter data p,
    fun r => ruleMatch_eq_spec E _ r, ?_⟩
  intro r hr
  have ht : t ≠ "" := by
    intro he
    apply h
    rw [he]
    rfl
  unfold normalize_insumo
  dsimp only
  rw [if_neg ht, firstRuleLabel_eq_find, hr]
  rfl

/-- C2 witness: the rule-order statement at the concrete two-rule table
of spec §8 (priorities 2 and 1, declared out of order) and the input
`"VACINA BCG"`. -/
theorem normalize_insumo_rule_order_witness :
    (load_mappings [⟨some "VACINA", some "Generic", some 2⟩,
        ⟨some "BCG", some "BCG", some 1⟩]).Perm
      [⟨some "VACINA", some "Generic", some 2⟩, ⟨some "BCG", some "BCG", some 1⟩]
    ∧ (load_mappings [⟨some "VACINA", some "Generic", some 2⟩,
        ⟨some "BCG", some "BCG", some 1⟩]).Pairwise (fun a b => prioOf a ≤ prioOf b)
    ∧ (∀ p : Int, (load_mappings [⟨some "VACINA", some "Generic", some 2⟩,
          ⟨some "BCG", some "BCG", some 1⟩]).filter (fun x => decide (prioOf x = p))
        = List.filter (fun x => decide (prioOf x = p))
            [⟨some "VACINA", some "Generic", some 2⟩, ⟨some "BCG", some "BCG", some 1⟩])
    ∧ (∀ r, ruleMatch litRe (stripChars "VACINA BCG".data).asString r
        = specRuleMatch litRe (stripChars "VACINA BCG".data).asString r)
    ∧ (∀ r, (load_mappings [⟨some "VACINA", some "Generic", some 2⟩,
          ⟨some "BCG", some "BCG", some 1⟩]).find?
            (ruleMatch litRe (stripChars "VACINA BCG".data).asString) = some r →
        normalize_insumo litRe
          (load_mappings [⟨some "VACINA", some "Generic", some 2⟩,
            ⟨some "BCG", some "BCG", some 1⟩]) (some "VACINA BCG") = r.vacina_normalizada) :=
  normalize_insumo_rule_order litRe
    [⟨some "VACINA", some "Generic", some 2⟩, ⟨some "BCG", some "BCG", some 1⟩]
    "VACINA BCG" (by decide)

/-- C3 counterexample: on `"DILUENTE B-C-G DILUENTE"` with the single
rule `BCG` (which does not match the hyphenated original), the claim's
first-occurrence extraction yields the candidate `"BCG DILUENTE"` and
predicts the rule's label, but the code's greedy `.*DILUENTE` consumes
through the last occurrence, leaving an empty candidate, and returns
null. -/
theorem normalize_insumo_diluent_cex :
    firstRuleLabel litRe (stripChars "DILUENTE B-C-G DILUENTE".data).asString
        [⟨some "BCG", some "BCG-label", some 1⟩] = Option.none
    ∧ hasSubstr "DILUENTE".data
        ((stripChars "DILUENTE B-C-G DILUENTE".data).map upChar) = true
    ∧ claimC3Candidate ((stripChars "DILUENTE B-C-G DILUENTE".data).map upChar)
        = "BCG DILUENTE".data
    ∧ firstRuleLabel litRe "BCG DILUENTE" [⟨some "BCG", some "BCG-label", some 1⟩]
        = some (some "BCG-label")
    ∧ normalize_insumo litRe [⟨some "BCG", some "BCG-label", some 1⟩]
        (some "DILUENTE B-C-G DILUENTE") = Option.none := by decide

/-- C3 (amended): when no rule matched the trimmed text, the upper-cased
text contains `DILUENTE`, and the candidate — the capture after `VACINA`
(optionally `P/`, `PARA`, `CONTRA`), else the remainder after the
**last** occurrence of `DILUENTE`, cleaned of hyphens, parentheses,
commas and digits and trimmed — is non-empty and matched by the
priority-ordered rule evaluation, `normalize_insumo` returns that first
match's label. -/
theorem normalize_insumo_diluent (E : Re) (mappings : List Rule) (t : String)
    (h1 : stripChars t.data ≠ [])
    (h2 : firstRuleLabel E (stripChars t.data).asString mappings = Option.none)
    (h3 : hasSubstr "DILUENTE".data ((stripChars t.data).map upChar) = true)
    (h4 : specDiluentCandidate ((stripChars t.data).map upChar) ≠ [])
    (l : Option String)
    (h5 : firstRuleLabel E
        (specDiluentCandidate ((stripChars t.data).map upChar)).asString mappings = some l) :
    normalize_insumo E mappings (some t) = l := by
  have ht : t ≠ "" := by
    intro he
    apply h1
    rw [he]
    rfl
  have hd : diluentStage E mappings (stripChars t.data) = some l := by
    unfold diluentStage
    dsimp only
    rw [if_pos h3]
    cases hv : vacinaCapture ((stripChars t.data).map upChar) with
    | some cap =>
        have hspec : specDiluentCandidate ((stripChars t.data).map upChar)
            = stripChars (cleanCandidate (stripChars cap)) := by
          unfold specDiluentCandidate
          rw [hv]
        have hcand : stripChars cap ≠ [] := by
          intro hc
          apply h4
          rw [hspec, hc]
          rfl
        rw [if_pos hcand]
        rw [hspec] at h5
        exact h5
    | none =>
        have hspec : specDiluentCandidate ((stripChars t.data).map upChar)
            = stripChars (cleanCandidate
                (stripChars (afterLastDiluente ((stripChars t.data).map upChar)))) := by
          unfold specDiluentCandidate
          rw [hv]
        have hcand : stripChars (afterLastDiluente ((stripChars t.data).map upChar)) ≠ [] := by
          intro hc
          apply h4
          rw [hspec, hc]
          rfl
        rw [if_pos hcand]
        rw [hspec] at h5
        exact h5
  unfold normalize_insumo
  dsimp only
  rw [if_neg ht, h2, hd]

/-- C3 witness: the amended statement at the concrete input
`"DILUENTE VACINA CONTRA B-C-G"` with the single rule `BCG`: the
embedded-vaccine capture yields `B-C-G`, cleaning yields `BCG`, and the
rule's label is returned. -/
theorem normalize_insumo_diluent_witness :
    normalize_insumo litRe [⟨some "BCG", some "BCG-label", some 1⟩]
      (some "DILUENTE VACINA CONTRA B-C-G") = some "BCG-label" :=
  normalize_insumo_diluent litRe [⟨some "BCG", some "BCG-label", some 1⟩]
    "DILUENTE VACINA CONTRA B-C-G" (by decide) (by decide) (by decide) (by decide)
    (some "BCG-label") (by decide)



theorem optSepThen_iff (q s : List Char) :
    sarsScan.optSepThen q s = true ↔
      (∃ t, s = q ++ t) ∨ (∃ t, s = '-' :: (q ++ t)) ∨ (∃ t, s = ' ' :: (q ++ t)) := by
  unfold sarsScan.optSepThen
  cases s with
  | nil =>
      simp only [Bool.or_eq_true, startsWithB_iff]
      constructor
      · rintro (⟨t, ht⟩ | h)
        · exact Or.inl ⟨t, ht⟩
        · cases h
      · rintro (⟨t, ht⟩ | ⟨t, ht⟩ | ⟨t, ht⟩)
        · exact Or.inl ⟨t, ht⟩
        · cases ht
        · cases ht
  | cons c cs =>
      simp only [Bool.or_eq_true, Bool.and_eq_true, startsWithB_iff, List.cons.injEq,
        decide_eq_true_eq]
      constructor
      · rintro (h | ⟨hc, t, ht⟩)
        · exact Or.inl h
        · rcases hc with hc | hc
          · exact Or.inr (Or.inl ⟨t, hc, ht⟩)
          · exact Or.inr (Or.inr ⟨t, hc, ht⟩)
      · rintro (h | ⟨t, hc, ht⟩ | ⟨t, hc, ht⟩)
        · exact Or.inl h
        · exact Or.inr ⟨Or.inl hc, t, ht⟩
        · exact Or.inr ⟨Or.inr hc, t, ht⟩

theorem sarsHere_iff (s : List Char) :
    sarsScan.sarsHere s = true ↔
      (∃ t, s = "SARSCOV2".data ++ t) ∨ (∃ t, s = "SARS-COV2".data ++ t)
      ∨ (∃ t, s = "SARS COV2".data ++ t) ∨ (∃ t, s = "COVID19".data ++ t)
      ∨ (∃ t, s = "COVID-19".data ++ t) ∨ (∃ t, s = "COVID 19".data ++ t) := by
  constructor
  · intro h
    unfold sarsScan.sarsHere at h
    rcases Bool.or_eq_true _ _ |>.mp h with hA | hB
    · obtain ⟨hS, hSep⟩ := Bool.and_eq_true _ _ |>.mp hA
      obtain ⟨t0, rfl⟩ := (startsWithB_iff _ _).mp hS
      have hdrop : ("SARS".data ++ t0).drop 4 = t0 := by
        simp
      rw [hdrop] at hSep
      rcases (optSepThen_iff _ _).mp hSep with ⟨t, rfl⟩ | ⟨t, rfl⟩ | ⟨t, rfl⟩
      · exact Or.inl ⟨t, rfl⟩
      · exact Or.inr (Or.inl ⟨t, rfl⟩)
      · exact Or.inr (Or.inr (Or.inl ⟨t, rfl⟩))
    · obtain ⟨hS, hSep⟩ := Bool.and_eq_true _ _ |>.mp hB
      obtain ⟨t0, rfl⟩ := (startsWithB_iff _ _).mp hS
      have hdrop : ("COVID".data ++ t0).drop 5 = t0 := by
        simp
      rw [hdrop] at hSep
      rcases (optSepThen_iff _ _).mp hSep with ⟨t, rfl⟩ | ⟨t, rfl⟩ | ⟨t, rfl⟩
      · exact Or.inr (Or.inr (Or.inr (Or.inl ⟨t, rfl⟩)))
      · exact Or.inr (Or.inr (Or.inr (Or.inr (Or.inl ⟨t, rfl⟩))))
      · exact Or.inr (Or.inr (Or.inr (Or.inr (Or.inr ⟨t, rfl⟩))))
  · rintro (⟨t, rfl⟩ | ⟨t, rfl⟩ | ⟨t, rfl⟩ | ⟨t, rfl⟩ | ⟨t, rfl⟩ | ⟨t, rfl⟩) <;> rfl

theorem sarsScan_iff_exists (u : List Char) :
    sarsScan u = true ↔ ∃ i, sarsScan.sarsHere (u.drop i) = true := by
  induction u with
  | nil =>
      constructor
      · intro h
        cases h
      · rintro ⟨i, hi⟩
        simpa using hi
  | cons c cs ih =>
      rw [sarsScan]
      simp only [Bool.or_eq_true, ih]
      constructor
      · rintro (h | ⟨i, hi⟩)
        · exact ⟨0, h⟩
        · exact ⟨i + 1, by simpa using hi⟩
      · rintro ⟨i, hi⟩
        cases i with
        | zero => exact Or.inl (by simpa using hi)
        | succ j => exact Or.inr ⟨j, by simpa using hi⟩

theorem sarsScan_iff_spec (u : List Char) : sarsScan u = true ↔ specCovidPattern u := by
  rw [sarsScan_iff_exists]
  unfold specCovidPattern
  constructor
  · rintro ⟨i, hi⟩
    have hu : u.take i ++ u.drop i = u := List.take_append_drop i u
    rcases (sarsHere_iff _).mp hi with ⟨t, ht⟩ | ⟨t, ht⟩ | ⟨t, ht⟩ | ⟨t, ht⟩ | ⟨t, ht⟩ | ⟨t, ht⟩
    · exact Or.inl ⟨u.take i, t, by rw [List.append_assoc, ← ht, hu]⟩
    · exact Or.inr (Or.inl ⟨u.take i, t, by rw [List.append_assoc, ← ht, hu]⟩)
    · exact Or.inr (Or.inr (Or.inl ⟨u.take i, t, by rw [List.append_assoc, ← ht, hu]⟩))
    · exact Or.inr (Or.inr (Or.inr (Or.inl ⟨u.take i, t, by rw [List.append_assoc, ← ht, hu]⟩)))
    · exact Or.inr (Or.inr (Or.inr (Or.inr (Or.inl
        ⟨u.take i, t, by rw [List.append_assoc, ← ht, hu]⟩))))
    · exact Or.inr (Or.inr (Or.inr (Or.inr (Or.inr
        ⟨u.take i, t, by rw [List.append_assoc, ← ht, hu]⟩))))
  · rintro (⟨a, t, ht⟩ | ⟨a, t, ht⟩ | ⟨a, t, ht⟩ | ⟨a, t, ht⟩ | ⟨a, t, ht⟩ | ⟨a, t, ht⟩) <;>
    · refine ⟨a.length, ?_⟩
      rw [← ht, List.append_assoc, List.drop_left]
      rw [sarsHere_iff]
      simp

/-- C8: when no rule matched the trimmed text and the diluent special
case produced no match, `normalize_insumo` returns the fixed label
`"Covid-19"` exactly when the case-insensitive search finds `SARS`
(optional hyphen/space) `COV2` or `COVID` (optional hyphen/space) `19`,
and returns null when nothing matched at any stage. -/
theorem normalize_insumo_covid_fallback (E : Re) (mappings : List Rule) (t : String)
    (h1 : stripChars t.data ≠ [])
    (h2 : firstRuleLabel E (stripChars t.data).asString mappings = Option.none)
    (h3 : diluentStage E mappings (stripChars t.data) = Option.none) :
    (normalize_insumo E mappings (some t) = some "Covid-19"
      ↔ specCovidPattern ((stripChars t.data).map upChar))
    ∧ (¬ specCovidPattern ((stripChars t.data).map upChar)
        → normalize_insumo E mappings (some t) = Option.none) := by
  have ht : t ≠ "" := by
    intro he
    apply h1
    rw [he]
    rfl
  have hres : normalize_insumo E mappings (some t) = sarsFallback (stripChars t.data) := by
    unfold normalize_insumo
    dsimp only
    rw [if_neg ht, h2, h3]
  rw [hres]
  unfold sarsFallback
  constructor
  · constructor
    · intro h
      by_cases hs : sarsScan ((stripChars t.data).map upChar) = true
      · exact (sarsScan_iff_spec _).mp hs
      · rw [if_neg hs] at h
        cases h
    · intro h
      rw [if_pos ((sarsScan_iff_spec _).mpr h)]
  · intro h
    rw [if_neg (fun hs => h ((sarsScan_iff_spec _).mp hs))]

/-- C8 witness: the fallback statement at the concrete input
`"SARS-COV2 TESTE"` with an empty rule table. -/
theorem normalize_insumo_covid_fallback_witness :
    (normalize_insumo litRe [] (some "SARS-COV2 TESTE") = some "Covid-19"
      ↔ specCovidPattern ((stripChars "SARS-COV2 TESTE".data).map upChar))
    ∧ (¬ specCovidPattern ((stripChars "SARS-COV2 TESTE".data).map upChar)
        → normalize_insumo litRe [] (some "SARS-COV2 TESTE") = Option.none) :=
  normalize_insumo_covid_fallback litRe [] "SARS-COV2 TESTE"
    (by decide) (by decide) (by decide)

theorem diluentStage_mem {E : Re} {mappings : List Rule} {tx : List Char}
    {lbl : Option String} (h : diluentStage E mappings tx = some lbl) :
    ∃ r ∈ mappings, r.vacina_normalizada = lbl := by
  unfold diluentStage at h
  dsimp only at h
  by_cases hd : hasSubstr "DILUENTE".data (tx.map upChar) = true
  · rw [if_pos hd] at h
    cases hv : vacinaCapture (tx.map upChar) with
    | some cap =>
        rw [hv] at h
        dsimp only at h
        by_cases hc : stripChars cap ≠ []
        · rw [if_pos hc] at h
          exact firstRuleLabel_mem h
        · rw [if_neg hc] at h
          cases h
    | none =>
        rw [hv] at h
        dsimp only at h
        by_cases hc : stripChars (afterLastDiluente (tx.map upChar)) ≠ []
        · rw [if_pos hc] at h
          exact firstRuleLabel_mem h
        · rw [if_neg hc] at h
          cases h
  · rw [if_neg hd] at h
    cases h

/-- C10: every non-null label returned by `normalize_insumo` is either
the fixed fallback `"Covid-19"` or the `vacina_normalizada` field of some
rule of the table; no other label is ever fabricated. -/
theorem normalize_insumo_label_range (E : Re) (mappings : List Rule)
    (tx? : Option String) (l : String)
    (h : normalize_insumo E mappings tx? = some l) :
    l = "Covid-19" ∨ ∃ r ∈ mappings, r.vacina_normalizada = some l := by
  cases tx? with
  | none => cases h
  | some t =>
      unfold normalize_insumo at h
      dsimp only at h
      by_cases ht : t = ""
      · rw [if_pos ht] at h
        cases h
      · rw [if_neg ht] at h
        cases hs1 : firstRuleLabel E (stripChars t.data).asString mappings with
        | some lbl =>
            rw [hs1] at h
            dsimp only at h
            obtain ⟨r, hr, hv⟩ := firstRuleLabel_mem hs1
            exact Or.inr ⟨r, hr, hv.trans h⟩
        | none =>
            rw [hs1] at h
            dsimp only at h
            cases hs2 : diluentStage E mappings (stripChars t.data) with
            | some lbl =>
                rw [hs2] at h
                dsimp only at h
                obtain ⟨r, hr, hv⟩ := diluentStage_mem hs2
                exact Or.inr ⟨r, hr, hv.trans h⟩
            | none =>
                rw [hs2] at h
                dsimp only at h
                unfold sarsFallback at h
                by_cases hsc : sarsScan ((stripChars t.data).map upChar) = true
                · rw [if_pos hsc] at h
                  exact Or.inl (Option.some.inj h).symm
                · rw [if_neg hsc] at h
                  cases h

/-- C10 witness: at the concrete input `"covid 19"` with an empty rule
table, the returned label is the fixed fallback `"Covid-19"`. -/
theorem normalize_insumo_label_range_witness :
    "Covid-19" = "Covid-19"
      ∨ ∃ r ∈ ([] : List Rule), r.vacina_normalizada = some "Covid-19" :=
  normalize_insumo_label_range litRe [] (some "covid 19") "Covid-19" (by decide)
